import Mathlib

/-!
Shallow embedding of the to-do web service (`app.py`): an in-memory task
store with REST handlers, an LLM routing layer that classifies raw model
output as a tool intent or a plain-text reply, a tool executor, and the
conversational endpoint that chains them.  Python dictionaries and JSON
values are modelled by `JsonVal`; a Python exception escaping a handler is
modelled by `Option.none` in the handler result type.
-/

namespace TodoApp

/-- JSON values as produced by `json.loads` / consumed by `jsonify`.
Objects are association lists; JSON numbers are modelled as integers
(the fields used by the app are integer ids only). -/
inductive JsonVal where
  | null : JsonVal
  | bool : Bool → JsonVal
  | num : Int → JsonVal
  | str : String → JsonVal
  | arr : List JsonVal → JsonVal
  | obj : List (String × JsonVal) → JsonVal

/-- Python `dict.get(k)` on the association list of an object: first binding wins. -/
def lookupField (fs : List (String × JsonVal)) (k : String) : Option JsonVal :=
  match fs with
  | [] => none
  | kv :: rest => if kv.fst == k then some kv.snd else lookupField rest k

/-- Python truth-value test on a JSON-decoded value:
`None`, `False`, `0`, `""`, `[]`, `\x7b\x7d` are falsy. -/
def pyFalsy : JsonVal → Bool
  | JsonVal.null => true
  | JsonVal.bool b => !b
  | JsonVal.num n => n == 0
  | JsonVal.str s => s == ""
  | JsonVal.arr l => l.isEmpty
  | JsonVal.obj l => l.isEmpty

def pyTruthy (v : JsonVal) : Bool := !pyFalsy v

/-- The whitespace set of Python `str.strip()` (ASCII part). -/
def isPyWs (c : Char) : Bool :=
  c == ' ' || c == '\t' || c == '\n' || c == '\r' || c == '\x0b' || c == '\x0c'

/-- Remove elements satisfying `p` from both ends of a list
(the core of Python `str.strip`). -/
def stripEnds (p : Char → Bool) (l : List Char) : List Char :=
  ((l.dropWhile p).reverse.dropWhile p).reverse

/-- Python `s.strip()`. -/
def pyStrip (s : String) : String := String.mk (stripEnds isPyWs s.data)

/-- Python `s.lower()` (ASCII case fold, matching how the app uses it). -/
def pyLower (s : String) : String := String.mk (s.data.map Char.toLower)

/-- Python `desc.strip().lower()`: the normalized description used as lookup key. -/
def normDesc (s : String) : String := pyLower (pyStrip s)

/-- Python `(p.get("description") or "").strip()` where `p` is any JSON value.
`none` models a raised exception: `.get` on a non-dict raises
`AttributeError`, and `.strip()` on a truthy non-string raises too.
A falsy value (or a missing key) collapses to `""`. -/
def getDescParam : JsonVal → Option String
  | JsonVal.obj fs =>
      match lookupField fs "description" with
      | none => some ""
      | some v =>
          if pyFalsy v then some ""
          else
            match v with
            | JsonVal.str s => some (pyStrip s)
            | _ => none
  | _ => none

/-- Flask `request.get_json(silent=True) or \x7b\x7d`: a missing/unparsable body or a
falsy parsed value becomes the empty dict. -/
def getJsonOr : Option JsonVal → JsonVal
  | none => JsonVal.obj []
  | some v => if pyFalsy v then JsonVal.obj [] else v

/-- Python `(data.get("message") or "").strip()`, the message extraction
of the conversational endpoint.  `none` models the `AttributeError`
raised when the message value is a truthy non-string; a falsy value or a
missing key collapses to `""`. -/
def getMsgParam : JsonVal → Option String
  | JsonVal.obj fs =>
      match lookupField fs "message" with
      | none => some ""
      | some v =>
          if pyFalsy v then some ""
          else
            match v with
            | JsonVal.str s => some (pyStrip s)
            | _ => none
  | _ => none

/-- One stored to-do item (the dicts appended to the global `tasks` list). -/
structure Task where
  id : Nat
  description : String
  completed : Bool
  created_at : String
deriving DecidableEq

/-- The global mutable state: the `tasks` list and the `next_id` counter. -/
structure St where
  tasks : List Task
  next_id : Nat
deriving DecidableEq

/-- The initial server state: `tasks = []`, `next_id = 1`. -/
def initSt : St := St.mk [] 1

/-- Serialization by `jsonify` of one task dict. -/
def taskJson (t : Task) : JsonVal :=
  JsonVal.obj [("id", JsonVal.num (Int.ofNat t.id)),
               ("description", JsonVal.str t.description),
               ("completed", JsonVal.bool t.completed),
               ("created_at", JsonVal.str t.created_at)]

/-- The comparison inside `_find_task_by_desc`:
`t["description"].strip().lower() == d` with `d = desc.strip().lower()`. -/
def descMatches (d : String) (t : Task) : Bool :=
  normDesc t.description == normDesc d

/-- Helper `_find_task_by_desc`: first task (insertion order) whose normalized
description equals the normalized input. -/
def _find_task_by_desc (tasks : List Task) (desc : String) : Option Task :=
  tasks.find? (descMatches desc)

/-- The in-place mutation `task["completed"] = True` applied to the task
returned by `_find_task_by_desc`: functionally, replace the first
normalized match and leave everything else untouched. -/
def setCompletedFirst (d : String) : List Task → List Task
  | [] => []
  | t :: ts =>
      if descMatches d t then { t with completed := true } :: ts
      else t :: setCompletedFirst d ts

/-- Endpoint `POST /api/tasks` (`create_task`).  Result: HTTP status, JSON body and
the new state; `none` models an uncaught exception. -/
def create_task (body? : Option JsonVal) (now : String) (s : St) :
    Option (Nat × JsonVal × St) :=
  let data := getJsonOr body?
  match getDescParam data with
  | none => none
  | some description =>
      if description == "" then
        some (400, JsonVal.obj [("error", JsonVal.str "description is required")], s)
      else
        let task : Task := Task.mk s.next_id description false now
        some (201, taskJson task, St.mk (s.tasks ++ [task]) (s.next_id + 1))

/-- Endpoint `PATCH /api/tasks/by-description` (`complete_task_by_description`). -/
def complete_task_by_description (body? : Option JsonVal) (s : St) :
    Option (Nat × JsonVal × St) :=
  let data := getJsonOr body?
  match getDescParam data with
  | none => none
  | some desc =>
      if desc == "" then
        some (400, JsonVal.obj [("error", JsonVal.str "description is required")], s)
      else
        match _find_task_by_desc s.tasks desc with
        | none => some (404, JsonVal.obj [("error", JsonVal.str "task not found")], s)
        | some t =>
            some (200, taskJson { t with completed := true },
                  St.mk (setCompletedFirst desc s.tasks) s.next_id)

/-- Endpoint `DELETE /api/tasks/by-description` (`delete_task_by_description`).
`tasks.remove(t)` removes the first list element equal to the found task. -/
def delete_task_by_description (body? : Option JsonVal) (s : St) :
    Option (Nat × JsonVal × St) :=
  let data := getJsonOr body?
  match getDescParam data with
  | none => none
  | some desc =>
      if desc == "" then
        some (400, JsonVal.obj [("error", JsonVal.str "description is required")], s)
      else
        match _find_task_by_desc s.tasks desc with
        | none => some (404, JsonVal.obj [("error", JsonVal.str "task not found")], s)
        | some t =>
            some (200, JsonVal.obj [("ok", JsonVal.bool true),
                                    ("deleted_description", JsonVal.str desc)],
                  St.mk (s.tasks.erase t) s.next_id)

/-- The backtick character. -/
def bq : Char := Char.ofNat 96

/-- Python `s.startswith` checking for a triple backtick fence. -/
def startsWithFence : List Char → Bool
  | a :: b :: c :: _ => a == bq && b == bq && c == bq
  | _ => false

/-- Python `s.split("\n", 1)[-1]`: everything after the first newline, or
the whole string when it contains none. -/
def afterFirstNewline (l : List Char) : List Char :=
  if l.contains '\n' then (l.dropWhile (fun c => !(c == '\n'))).drop 1 else l

/-- Helper `_strip_fences`: trim, drop a leading code fence (all surrounding
backticks plus the first line, e.g. a `json` language tag), trim again. -/
def _strip_fences (s : String) : String :=
  if s == "" then s
  else
    let s1 := pyStrip s
    let s2 :=
      if startsWithFence s1.data then
        String.mk (afterFirstNewline (stripEnds (fun c => c == bq) s1.data))
      else s1
    pyStrip s2

/-- Membership test `fn in ("addTask","completeTask","deleteTask","viewTasks")`
applied to an arbitrary JSON value: only the four exact strings are members.
(An unhashable value raises `TypeError` inside the `try`, which the code
swallows into the same plain-text outcome as a non-member.) -/
def inRecognizedSet (v : JsonVal) : Bool :=
  match v with
  | JsonVal.str f =>
      f == "addTask" || f == "completeTask" || f == "deleteTask" || f == "viewTasks"
  | _ => false

/-- The comparison `fn == "name"` where `fn` is `tool.get("function")` and
may be `None` or any JSON value: true only for the exact string. -/
def isFnName (fn : Option JsonVal) (name : String) : Bool :=
  match fn with
  | some (JsonVal.str f) => f == name
  | _ => false

/-- The classification produced by the router for one LLM response. -/
inductive RouteResult where
  | tool : JsonVal → RouteResult
  | text : String → RouteResult

/-- The `try: data = json.loads(content) ...` block of `llm_route` applied to
the raw response text.  `parse` stands for `json.loads` (`none` = parse
error); any exception inside the `try` falls through to the plain-text
reply carrying the fence-stripped content. -/
def routeContent (parse : String → Option JsonVal) (raw : String) : RouteResult :=
  let content := _strip_fences raw
  match parse content with
  | some (JsonVal.obj fs) =>
      match lookupField fs "function" with
      | some fnv =>
          if inRecognizedSet fnv then RouteResult.tool (JsonVal.obj fs)
          else RouteResult.text content
      | none => RouteResult.text content
  | _ => RouteResult.text content

/-- How the LLM call itself went: no configured client, a transport/SDK
exception, or a raw completion text. -/
inductive LLMOutcome where
  | noClient : LLMOutcome
  | sdkError : LLMOutcome
  | content : String → LLMOutcome
deriving DecidableEq

/-- Router `llm_route`: `None` when no client is configured or the call raised;
otherwise the classification of the returned text. -/
def llm_route (o : LLMOutcome) (parse : String → Option JsonVal) :
    Option RouteResult :=
  match o with
  | LLMOutcome.noClient => none
  | LLMOutcome.sdkError => none
  | LLMOutcome.content raw => some (routeContent parse raw)

/-- Executor `_execute_tool`: run one tool intent against the store.  `none` models
an uncaught exception (non-dict intent, or a truthy non-string description
parameter). -/
def _execute_tool (tool : JsonVal) (now : String) (s : St) :
    Option (JsonVal × St) :=
  match tool with
  | JsonVal.obj fs =>
      let fn := lookupField fs "function"
      let p := (lookupField fs "parameters").getD (JsonVal.obj [])
      if isFnName fn "addTask" then
        match getDescParam p with
        | none => none
        | some desc =>
            if desc == "" then
              some (JsonVal.obj [("error", JsonVal.str "description required")], s)
            else
              let task : Task := Task.mk s.next_id desc false now
              some (JsonVal.obj [("ok", JsonVal.bool true), ("task", taskJson task)],
                    St.mk (s.tasks ++ [task]) (s.next_id + 1))
      else if isFnName fn "viewTasks" then
        some (JsonVal.obj [("ok", JsonVal.bool true),
                           ("tasks", JsonVal.arr (s.tasks.map taskJson))], s)
      else if isFnName fn "completeTask" then
        match getDescParam p with
        | none => none
        | some desc =>
            match _find_task_by_desc s.tasks desc with
            | none => some (JsonVal.obj [("error", JsonVal.str "not found")], s)
            | some t =>
                some (JsonVal.obj [("ok", JsonVal.bool true),
                                   ("task", taskJson { t with completed := true })],
                      St.mk (setCompletedFirst desc s.tasks) s.next_id)
      else if isFnName fn "deleteTask" then
        match getDescParam p with
        | none => none
        | some desc =>
            match _find_task_by_desc s.tasks desc with
            | none => some (JsonVal.obj [("error", JsonVal.str "not found")], s)
            | some t =>
                some (JsonVal.obj [("ok", JsonVal.bool true),
                                   ("deleted_description", JsonVal.str desc)],
                      St.mk (s.tasks.erase t) s.next_id)
      else
        some (JsonVal.obj [("error", JsonVal.str "unknown")], s)
  | _ => none

/-- Python `str()` on a JSON scalar, as interpolated by the reply
f-strings.  Containers are never interpolated on any reachable path
(success implies a string-valued description), so they are left out. -/
def pyStrScalar : JsonVal → Option String
  | JsonVal.str s => some s
  | JsonVal.bool true => some "True"
  | JsonVal.bool false => some "False"
  | JsonVal.null => some "None"
  | JsonVal.num n => some (toString n)
  | _ => none

/-- Access `tool["parameters"]["description"]` inside an f-string: both `[...]`
accesses raise on a missing key or a non-dict, modelled by `none`. -/
def fstringDesc (fs : List (String × JsonVal)) : Option String :=
  match lookupField fs "parameters" with
  | none => none
  | some pv =>
      match pv with
      | JsonVal.obj pfs =>
          match lookupField pfs "description" with
          | none => none
          | some v => pyStrScalar v
      | _ => none

/-- Truthiness of `result.get("ok")`; `none` models `.get` raising on a
non-dict result. -/
def okGet (result : JsonVal) : Option Bool :=
  match result with
  | JsonVal.obj rs =>
      match lookupField rs "ok" with
      | some v => some (pyTruthy v)
      | none => some false
  | _ => none

/-- One short-circuit conjunct `tool["function"] == name and result.get("ok")`
of the reply chain (`fnv` is the already-fetched function value). -/
def synthCond (fnv : JsonVal) (name : String) (result : JsonVal) : Option Bool :=
  match fnv with
  | JsonVal.str f => if f == name then okGet result else some false
  | _ => some false

/-- The reply-synthesis if/elif chain of `brain_execute`.  `none` models an
exception (missing `function` key, missing parameters on a success path). -/
def synthReply (tool result : JsonVal) (tasksAfter : List Task) : Option String :=
  match tool with
  | JsonVal.obj fs =>
      match lookupField fs "function" with
      | none => none
      | some fnv =>
          match synthCond fnv "addTask" result with
          | none => none
          | some true =>
              (fstringDesc fs).map (fun d => "Added “" ++ d ++ "”.")
          | some false =>
            match synthCond fnv "completeTask" result with
            | none => none
            | some true =>
                (fstringDesc fs).map (fun d => "Marked “" ++ d ++ "” as done.")
            | some false =>
              match synthCond fnv "deleteTask" result with
              | none => none
              | some true =>
                  (fstringDesc fs).map (fun d => "Deleted “" ++ d ++ "”.")
              | some false =>
                  match fnv with
                  | JsonVal.str f =>
                      if f == "viewTasks" then
                        some ("You have " ++ toString tasksAfter.length ++ " task(s).")
                      else some "OK"
                  | _ => some "OK"
  | _ => none

/-- Endpoint `POST /api/brain/execute` (`brain_execute`), given the router result.
Returns HTTP status, JSON body and the new state; `none` models an
uncaught exception below the routing layer. -/
def brain_execute (llm : Option RouteResult) (now : String) (s : St) :
    Option (Nat × JsonVal × St) :=
  match llm with
  | none =>
      some (200, JsonVal.obj [("mode", JsonVal.str "text"),
                              ("reply", JsonVal.str "Sorry, I can\x27t do that.")], s)
  | some (RouteResult.text r) =>
      some (200, JsonVal.obj [("mode", JsonVal.str "text"),
                              ("reply", JsonVal.str r)], s)
  | some (RouteResult.tool tool) =>
      match _execute_tool tool now s with
      | none => none
      | some (result, s') =>
          match synthReply tool result s'.tasks with
          | none => none
          | some reply =>
              some (200, JsonVal.obj [("mode", JsonVal.str "tool"), ("tool", tool),
                                      ("result", result),
                                      ("reply", JsonVal.str reply)], s')

/-- Endpoint `POST /api/brain/execute` for a whole request, including the
body handling `data = request.get_json(silent=True) or ...` and the
message extraction `msg = (data.get("message") or "").strip()` that run
before `llm_route` is called.  `oracle` gives the LLM-call outcome for
the extracted message (unconfigured client, SDK exception, or a raw
completion); `none` models the `AttributeError` a truthy non-string
message raises before the routing layer is reached. -/
def brain_execute_request (body? : Option JsonVal)
    (oracle : String → LLMOutcome) (parse : String → Option JsonVal)
    (now : String) (s : St) : Option (Nat × JsonVal × St) :=
  let data := getJsonOr body?
  match getMsgParam data with
  | none => none
  | some msg => brain_execute (llm_route (oracle msg) parse) now s

/-- One state-mutating request: the three mutating REST handlers, or a tool
intent executed by the conversational endpoint. -/
inductive Op where
  | restCreate : Option JsonVal → String → Op
  | restComplete : Option JsonVal → Op
  | restDelete : Option JsonVal → Op
  | brainTool : JsonVal → String → Op

/-- The state after serving one request.  A handler that raises leaves the
store untouched (every raising path raises before any mutation). -/
def applyOp (s : St) (op : Op) : St :=
  match op with
  | Op.restCreate b now =>
      match create_task b now s with
      | some (_, _, s') => s'
      | none => s
  | Op.restComplete b =>
      match complete_task_by_description b s with
      | some (_, _, s') => s'
      | none => s
  | Op.restDelete b =>
      match delete_task_by_description b s with
      | some (_, _, s') => s'
      | none => s
  | Op.brainTool t now =>
      match _execute_tool t now s with
      | some (_, s') => s'
      | none => s

/-- The state after serving a sequence of requests. -/
def runOps (ops : List Op) (s : St) : St := ops.foldl applyOp s

/-- The ids assigned by one request: `next_id` advances exactly when a
creation succeeds, and the created task receives the old counter value. -/
def opAssignedIds (s : St) (op : Op) : List Nat :=
  if s.next_id < (applyOp s op).next_id then [s.next_id] else []

/-- All ids ever assigned along a request sequence, in creation order. -/
def traceIds : List Op → St → List Nat
  | [], _ => []
  | op :: ops, s => opAssignedIds s op ++ traceIds ops (applyOp s op)

/-! Section: Helper lemmas: lists and Python string primitives -/

theorem find?_first {α : Type} (p : α → Bool) (l : List α) (a : α)
    (h : l.find? p = some a) :
    ∃ l1 l2, l = l1 ++ a :: l2 ∧ (∀ u ∈ l1, p u = false) ∧ p a = true := by
  induction l with
  | nil => simp at h
  | cons x xs ih =>
    by_cases hx : p x = true
    · rw [List.find?_cons_of_pos _ hx] at h
      obtain rfl : x = a := by injection h
      exact ⟨[], xs, rfl, by simp, hx⟩
    · rw [List.find?_cons_of_neg _ (by simpa using hx)] at h
      obtain ⟨l1, l2, rfl, h1, h2⟩ := ih h
      refine ⟨x :: l1, l2, rfl, ?_, h2⟩
      intro u hu
      rcases List.mem_cons.mp hu with rfl | hu
      · simpa using hx
      · exact h1 u hu

theorem dropWhile_dropWhile {α : Type} (p : α → Bool) (l : List α) :
    (l.dropWhile p).dropWhile p = l.dropWhile p := by
  induction l with
  | nil => rfl
  | cons x xs ih =>
    by_cases h : p x
    · simp [List.dropWhile_cons, h, ih]
    · simp [List.dropWhile_cons, h]

theorem dropWhile_is_suffix {α : Type} (p : α → Bool) (l : List α) :
    ∃ t, t ++ l.dropWhile p = l := by
  induction l with
  | nil => exact ⟨[], rfl⟩
  | cons x xs ih =>
    by_cases h : p x
    · obtain ⟨t, ht⟩ := ih
      exact ⟨x :: t, by simp [List.dropWhile_cons, h, ht]⟩
    · exact ⟨[], by simp [List.dropWhile_cons, h]⟩

theorem dropWhile_length_le {α : Type} (p : α → Bool) (l : List α) :
    (l.dropWhile p).length ≤ l.length := by
  induction l with
  | nil => simp
  | cons x xs ih =>
    by_cases h : p x = true
    · rw [List.dropWhile_cons, if_pos h]
      exact Nat.le_trans ih (by simp)
    · rw [List.dropWhile_cons, if_neg (by simpa using h)]

theorem head_not_of_dropWhile_self {α : Type} {p : α → Bool} {r : α} {rest : List α}
    (h : (r :: rest).dropWhile p = r :: rest) : p r = false := by
  by_contra hc
  have hp : p r = true := by simpa using hc
  rw [List.dropWhile_cons, if_pos hp] at h
  have hlen := congrArg List.length h
  have hle : (rest.dropWhile p).length ≤ rest.length := dropWhile_length_le p rest
  simp at hlen
  omega

theorem stripEnds_idem (p : Char → Bool) (l : List Char) :
    stripEnds p (stripEnds p l) = stripEnds p l := by
  unfold stripEnds
  have fact2 : ((l.dropWhile p).reverse.dropWhile p).dropWhile p
      = (l.dropWhile p).reverse.dropWhile p := dropWhile_dropWhile p _
  have hR : ((l.dropWhile p).reverse.dropWhile p).reverse.dropWhile p
      = ((l.dropWhile p).reverse.dropWhile p).reverse := by
    cases hrev : ((l.dropWhile p).reverse.dropWhile p).reverse with
    | nil => simp
    | cons r R' =>
      obtain ⟨t, ht⟩ := dropWhile_is_suffix p (l.dropWhile p).reverse
      have hA : l.dropWhile p = r :: (R' ++ t.reverse) := by
        have h1 := congrArg List.reverse ht
        simp at h1
        rw [← h1, hrev]
        simp
      have hpr : p r = false := by
        have hself : (r :: (R' ++ t.reverse)).dropWhile p = r :: (R' ++ t.reverse) := by
          rw [← hA]
          exact dropWhile_dropWhile p l
        exact head_not_of_dropWhile_self hself
      rw [List.dropWhile_cons, if_neg (by simp [hpr])]
  rw [hR, List.reverse_reverse, fact2]

theorem pyStrip_idem (s : String) : pyStrip (pyStrip s) = pyStrip s := by
  show String.mk (stripEnds isPyWs (stripEnds isPyWs s.data)) = String.mk (stripEnds isPyWs s.data)
  rw [stripEnds_idem]

theorem pyLower_eq_empty {s : String} (h : pyLower s = "") : s = "" := by
  have hdata : s.data.map Char.toLower = ([] : List Char) := congrArg String.data h
  have : s.data = [] := by simpa using hdata
  cases s
  simp_all

theorem normDesc_of_stripped_ne {s : String} (h : pyStrip s ≠ "") :
    normDesc (pyStrip s) ≠ "" := by
  unfold normDesc
  rw [pyStrip_idem]
  intro hc
  exact h (pyLower_eq_empty hc)

theorem normDesc_empty : normDesc "" = "" := rfl

/-- A non-empty extracted description comes from a present, truthy, string
`description` parameter, and is its stripped form. -/
theorem getDescParam_some_ne {p : JsonVal} {d : String}
    (h : getDescParam p = some d) (hd : d ≠ "") :
    ∃ pfs s0, p = JsonVal.obj pfs
      ∧ lookupField pfs "description" = some (JsonVal.str s0)
      ∧ pyFalsy (JsonVal.str s0) = false ∧ d = pyStrip s0 := by
  cases p with
  | obj fs =>
    cases hl : lookupField fs "description" with
    | none =>
      simp only [getDescParam, hl] at h
      injection h with h
      exact absurd h.symm hd
    | some v =>
      simp only [getDescParam, hl] at h
      by_cases hf : pyFalsy v = true
      · rw [if_pos hf] at h
        injection h with h
        exact absurd h.symm hd
      · rw [if_neg hf] at h
        cases v with
        | str s0 =>
          injection h with h
          exact ⟨fs, s0, rfl, hl, by simpa using hf, h.symm⟩
        | null => simp at h
        | bool b => simp at h
        | num n => simp at h
        | arr l => simp at h
        | obj l => simp at h
  | null => simp [getDescParam] at h
  | bool b => simp [getDescParam] at h
  | num n => simp [getDescParam] at h
  | str s => simp [getDescParam] at h
  | arr l => simp [getDescParam] at h

/-- Every description the store can receive has been stripped, so a
non-empty one also has a non-empty normalization. -/
theorem getDescParam_normDesc_ne {p : JsonVal} {d : String}
    (h : getDescParam p = some d) (hd : d ≠ "") : normDesc d ≠ "" := by
  obtain ⟨pfs, s0, _, _, _, rfl⟩ := getDescParam_some_ne h hd
  exact normDesc_of_stripped_ne hd

/-- Applying `setCompletedFirst` to a list whose first normalized match is `t`
flips exactly `t` and leaves both sides of the split untouched. -/
theorem setCompletedFirst_split (d : String) (l1 l2 : List Task) (t : Task)
    (h1 : ∀ u ∈ l1, descMatches d u = false) (h2 : descMatches d t = true) :
    setCompletedFirst d (l1 ++ t :: l2)
      = l1 ++ ({ t with completed := true } : Task) :: l2 := by
  induction l1 with
  | nil => simp [setCompletedFirst, h2]
  | cons x xs ih =>
    have hx := h1 x (List.mem_cons_self x xs)
    simp only [List.cons_append, setCompletedFirst, hx]
    simp [ih (fun u hu => h1 u (List.mem_cons_of_mem _ hu))]

/-- Mutation `setCompletedFirst` never changes the stored descriptions. -/
theorem setCompletedFirst_descriptions (d : String) (l : List Task) :
    (setCompletedFirst d l).map Task.description = l.map Task.description := by
  induction l with
  | nil => rfl
  | cons x xs ih =>
    by_cases h : descMatches d x = true
    · simp [setCompletedFirst, h]
    · simp only [setCompletedFirst, h]
      simp [ih]

/-- Python `tasks.remove(t)` where `t` is the first normalized match deletes
exactly that entry. -/
theorem erase_first_match (d : String) (l1 l2 : List Task) (t : Task)
    (h1 : ∀ u ∈ l1, descMatches d u = false) (h2 : descMatches d t = true) :
    (l1 ++ t :: l2).erase t = l1 ++ l2 := by
  have ht : t ∉ l1 := by
    intro hmem
    rw [h1 t hmem] at h2
    exact Bool.false_ne_true h2
  rw [List.erase_append_right _ ht, List.erase_cons_head]

/-! Section: Helper lemmas: handler case analyses -/

/-- Full case analysis of `create_task`. -/
theorem create_task_cases (b : Option JsonVal) (now : String) (s : St) :
    create_task b now s = none
    ∨ (getDescParam (getJsonOr b) = some ""
        ∧ create_task b now s
          = some (400, JsonVal.obj [("error", JsonVal.str "description is required")], s))
    ∨ (∃ d, getDescParam (getJsonOr b) = some d ∧ d ≠ ""
        ∧ create_task b now s
          = some (201, taskJson (Task.mk s.next_id d false now),
                  St.mk (s.tasks ++ [Task.mk s.next_id d false now]) (s.next_id + 1))) := by
  cases h : getDescParam (getJsonOr b) with
  | none => exact Or.inl (by simp only [create_task, h])
  | some d =>
    by_cases hd : d = ""
    · subst hd
      exact Or.inr (Or.inl ⟨rfl, by simp only [create_task, h]; rfl⟩)
    · refine Or.inr (Or.inr ⟨d, rfl, hd, ?_⟩)
      simp only [create_task, h]
      rw [if_neg (by simpa using hd)]

/-- Full case analysis of `complete_task_by_description`. -/
theorem complete_task_cases (b : Option JsonVal) (s : St) :
    complete_task_by_description b s = none
    ∨ (getDescParam (getJsonOr b) = some ""
        ∧ complete_task_by_description b s
          = some (400, JsonVal.obj [("error", JsonVal.str "description is required")], s))
    ∨ (∃ d, getDescParam (getJsonOr b) = some d ∧ d ≠ ""
        ∧ _find_task_by_desc s.tasks d = none
        ∧ complete_task_by_description b s
          = some (404, JsonVal.obj [("error", JsonVal.str "task not found")], s))
    ∨ (∃ d t, getDescParam (getJsonOr b) = some d ∧ d ≠ ""
        ∧ _find_task_by_desc s.tasks d = some t
        ∧ complete_task_by_description b s
          = some (200, taskJson { t with completed := true },
                  St.mk (setCompletedFirst d s.tasks) s.next_id)) := by
  cases h : getDescParam (getJsonOr b) with
  | none => exact Or.inl (by simp only [complete_task_by_description, h])
  | some d =>
    by_cases hd : d = ""
    · subst hd
      exact Or.inr (Or.inl ⟨rfl, by simp only [complete_task_by_description, h]; rfl⟩)
    · cases hf : _find_task_by_desc s.tasks d with
      | none =>
        refine Or.inr (Or.inr (Or.inl ⟨d, rfl, hd, hf, ?_⟩))
        simp only [complete_task_by_description, h]
        rw [if_neg (by simpa using hd), hf]
      | some t =>
        refine Or.inr (Or.inr (Or.inr ⟨d, t, rfl, hd, hf, ?_⟩))
        simp only [complete_task_by_description, h]
        rw [if_neg (by simpa using hd), hf]

/-- Full case analysis of `delete_task_by_description`. -/
theorem delete_task_cases (b : Option JsonVal) (s : St) :
    delete_task_by_description b s = none
    ∨ (getDescParam (getJsonOr b) = some ""
        ∧ delete_task_by_description b s
          = some (400, JsonVal.obj [("error", JsonVal.str "description is required")], s))
    ∨ (∃ d, getDescParam (getJsonOr b) = some d ∧ d ≠ ""
        ∧ _find_task_by_desc s.tasks d = none
        ∧ delete_task_by_description b s
          = some (404, JsonVal.obj [("error", JsonVal.str "task not found")], s))
    ∨ (∃ d t, getDescParam (getJsonOr b) = some d ∧ d ≠ ""
        ∧ _find_task_by_desc s.tasks d = some t
        ∧ delete_task_by_description b s
          = some (200, JsonVal.obj [("ok", JsonVal.bool true),
                                    ("deleted_description", JsonVal.str d)],
                  St.mk (s.tasks.erase t) s.next_id)) := by
  cases h : getDescParam (getJsonOr b) with
  | none => exact Or.inl (by simp only [delete_task_by_description, h])
  | some d =>
    by_cases hd : d = ""
    · subst hd
      exact Or.inr (Or.inl ⟨rfl, by simp only [delete_task_by_description, h]; rfl⟩)
    · cases hf : _find_task_by_desc s.tasks d with
      | none =>
        refine Or.inr (Or.inr (Or.inl ⟨d, rfl, hd, hf, ?_⟩))
        simp only [delete_task_by_description, h]
        rw [if_neg (by simpa using hd), hf]
      | some t =>
        refine Or.inr (Or.inr (Or.inr ⟨d, t, rfl, hd, hf, ?_⟩))
        simp only [delete_task_by_description, h]
        rw [if_neg (by simpa using hd), hf]

/-- Evaluating `_execute_tool` on an `addTask` intent. -/
theorem exec_addTask_eq (fs : List (String × JsonVal)) (now : String) (s : St)
    (hfn : lookupField fs "function" = some (JsonVal.str "addTask")) :
    _execute_tool (JsonVal.obj fs) now s
      = match getDescParam ((lookupField fs "parameters").getD (JsonVal.obj [])) with
        | none => none
        | some desc =>
            if desc == "" then
              some (JsonVal.obj [("error", JsonVal.str "description required")], s)
            else
              some (JsonVal.obj [("ok", JsonVal.bool true),
                                 ("task", taskJson (Task.mk s.next_id desc false now))],
                    St.mk (s.tasks ++ [Task.mk s.next_id desc false now]) (s.next_id + 1)) := by
  simp only [_execute_tool, hfn]
  rfl

/-- Evaluating `_execute_tool` on a `viewTasks` intent. -/
theorem exec_viewTasks_eq (fs : List (String × JsonVal)) (now : String) (s : St)
    (hfn : lookupField fs "function" = some (JsonVal.str "viewTasks")) :
    _execute_tool (JsonVal.obj fs) now s
      = some (JsonVal.obj [("ok", JsonVal.bool true),
                           ("tasks", JsonVal.arr (s.tasks.map taskJson))], s) := by
  simp only [_execute_tool, hfn]
  rfl

/-- Evaluating `_execute_tool` on a `completeTask` intent. -/
theorem exec_completeTask_eq (fs : List (String × JsonVal)) (now : String) (s : St)
    (hfn : lookupField fs "function" = some (JsonVal.str "completeTask")) :
    _execute_tool (JsonVal.obj fs) now s
      = match getDescParam ((lookupField fs "parameters").getD (JsonVal.obj [])) with
        | none => none
        | some desc =>
            match _find_task_by_desc s.tasks desc with
            | none => some (JsonVal.obj [("error", JsonVal.str "not found")], s)
            | some t =>
                some (JsonVal.obj [("ok", JsonVal.bool true),
                                   ("task", taskJson { t with completed := true })],
                      St.mk (setCompletedFirst desc s.tasks) s.next_id) := by
  simp only [_execute_tool, hfn]
  rfl

/-- Evaluating `_execute_tool` on a `deleteTask` intent. -/
theorem exec_deleteTask_eq (fs : List (String × JsonVal)) (now : String) (s : St)
    (hfn : lookupField fs "function" = some (JsonVal.str "deleteTask")) :
    _execute_tool (JsonVal.obj fs) now s
      = match getDescParam ((lookupField fs "parameters").getD (JsonVal.obj [])) with
        | none => none
        | some desc =>
            match _find_task_by_desc s.tasks desc with
            | none => some (JsonVal.obj [("error", JsonVal.str "not found")], s)
            | some t =>
                some (JsonVal.obj [("ok", JsonVal.bool true),
                                   ("deleted_description", JsonVal.str desc)],
                      St.mk (s.tasks.erase t) s.next_id) := by
  simp only [_execute_tool, hfn]
  rfl

/-- Evaluating `_execute_tool` on an unrecognized function value. -/
theorem exec_unknown_eq (fs : List (String × JsonVal)) (now : String) (s : St)
    (h1 : isFnName (lookupField fs "function") "addTask" = false)
    (h2 : isFnName (lookupField fs "function") "viewTasks" = false)
    (h3 : isFnName (lookupField fs "function") "completeTask" = false)
    (h4 : isFnName (lookupField fs "function") "deleteTask" = false) :
    _execute_tool (JsonVal.obj fs) now s
      = some (JsonVal.obj [("error", JsonVal.str "unknown")], s) := by
  simp only [_execute_tool, h1, h2, h3, h4]
  rfl

/-- Full case analysis of `_execute_tool`. -/
theorem execute_tool_cases (tool : JsonVal) (now : String) (s : St) :
    _execute_tool tool now s = none
    ∨ (∃ msg, _execute_tool tool now s = some (JsonVal.obj [("error", JsonVal.str msg)], s))
    ∨ (∃ fs d, tool = JsonVal.obj fs
        ∧ lookupField fs "function" = some (JsonVal.str "addTask")
        ∧ getDescParam ((lookupField fs "parameters").getD (JsonVal.obj [])) = some d
        ∧ d ≠ ""
        ∧ _execute_tool tool now s
          = some (JsonVal.obj [("ok", JsonVal.bool true),
                               ("task", taskJson (Task.mk s.next_id d false now))],
                  St.mk (s.tasks ++ [Task.mk s.next_id d false now]) (s.next_id + 1)))
    ∨ (_execute_tool tool now s
        = some (JsonVal.obj [("ok", JsonVal.bool true),
                             ("tasks", JsonVal.arr (s.tasks.map taskJson))], s))
    ∨ (∃ fs d t, tool = JsonVal.obj fs
        ∧ lookupField fs "function" = some (JsonVal.str "completeTask")
        ∧ getDescParam ((lookupField fs "parameters").getD (JsonVal.obj [])) = some d
        ∧ _find_task_by_desc s.tasks d = some t
        ∧ _execute_tool tool now s
          = some (JsonVal.obj [("ok", JsonVal.bool true),
                               ("task", taskJson { t with completed := true })],
                  St.mk (setCompletedFirst d s.tasks) s.next_id))
    ∨ (∃ fs d t, tool = JsonVal.obj fs
        ∧ lookupField fs "function" = some (JsonVal.str "deleteTask")
        ∧ getDescParam ((lookupField fs "parameters").getD (JsonVal.obj [])) = some d
        ∧ _find_task_by_desc s.tasks d = some t
        ∧ _execute_tool tool now s
          = some (JsonVal.obj [("ok", JsonVal.bool true),
                               ("deleted_description", JsonVal.str d)],
                  St.mk (s.tasks.erase t) s.next_id)) := by
  cases tool with
  | obj fs =>
    by_cases ha : lookupField fs "function" = some (JsonVal.str "addTask")
    · cases hp : getDescParam ((lookupField fs "parameters").getD (JsonVal.obj [])) with
      | none =>
        refine Or.inl ?_
        rw [exec_addTask_eq fs now s ha]
        simp only [hp]
      | some d =>
        by_cases hd : d = ""
        · subst hd
          refine Or.inr (Or.inl ⟨"description required", ?_⟩)
          rw [exec_addTask_eq fs now s ha]
          simp only [hp]
          rfl
        · refine Or.inr (Or.inr (Or.inl ⟨fs, d, rfl, ha, hp, hd, ?_⟩))
          rw [exec_addTask_eq fs now s ha]
          simp only [hp]
          rw [if_neg (by simpa using hd)]
    · by_cases hv : lookupField fs "function" = some (JsonVal.str "viewTasks")
      · exact Or.inr (Or.inr (Or.inr (Or.inl (exec_viewTasks_eq fs now s hv))))
      · by_cases hc : lookupField fs "function" = some (JsonVal.str "completeTask")
        · cases hp : getDescParam ((lookupField fs "parameters").getD (JsonVal.obj [])) with
          | none =>
            refine Or.inl ?_
            rw [exec_completeTask_eq fs now s hc]
            simp only [hp]
          | some d =>
            cases hf : _find_task_by_desc s.tasks d with
            | none =>
              refine Or.inr (Or.inl ⟨"not found", ?_⟩)
              rw [exec_completeTask_eq fs now s hc]
              simp only [hp, hf]
            | some t =>
              refine Or.inr (Or.inr (Or.inr (Or.inr (Or.inl ⟨fs, d, t, rfl, hc, hp, hf, ?_⟩))))
              rw [exec_completeTask_eq fs now s hc]
              simp only [hp, hf]
        · by_cases hdel : lookupField fs "function" = some (JsonVal.str "deleteTask")
          · cases hp : getDescParam ((lookupField fs "parameters").getD (JsonVal.obj [])) with
            | none =>
              refine Or.inl ?_
              rw [exec_deleteTask_eq fs now s hdel]
              simp only [hp]
            | some d =>
              cases hf : _find_task_by_desc s.tasks d with
              | none =>
                refine Or.inr (Or.inl ⟨"not found", ?_⟩)
                rw [exec_deleteTask_eq fs now s hdel]
                simp only [hp, hf]
              | some t =>
                refine Or.inr (Or.inr (Or.inr (Or.inr (Or.inr ⟨fs, d, t, rfl, hdel, hp, hf, ?_⟩))))
                rw [exec_deleteTask_eq fs now s hdel]
                simp only [hp, hf]
          · refine Or.inr (Or.inl ⟨"unknown", ?_⟩)
            apply exec_unknown_eq fs now s
            all_goals
              cases hl : lookupField fs "function" with
              | none => rfl
              | some v =>
                cases v with
                | str f =>
                  simp only [isFnName, beq_eq_false_iff_ne]
                  intro hfeq
                  subst hfeq
                  rw [hl] at ha hv hc hdel
                  first
                    | exact ha rfl
                    | exact hv rfl
                    | exact hc rfl
                    | exact hdel rfl
                | null => rfl
                | bool b => rfl
                | num n => rfl
                | arr l => rfl
                | obj o => rfl
  | null => exact Or.inl rfl
  | bool b => exact Or.inl rfl
  | num n => exact Or.inl rfl
  | str st => exact Or.inl rfl
  | arr l => exact Or.inl rfl

/-! Section: Helper lemmas: the id counter along request traces -/

/-- Serving one request either keeps the counter (and possibly the list)
or appends exactly one task carrying the old counter value and bumps the
counter by one. -/
theorem applyOp_step (s : St) (op : Op) :
    (applyOp s op).next_id = s.next_id
    ∨ ((applyOp s op).next_id = s.next_id + 1
        ∧ ∃ t, (applyOp s op).tasks = s.tasks ++ [t] ∧ t.id = s.next_id) := by
  cases op with
  | restCreate b now =>
    rcases create_task_cases b now s with hc | ⟨_, hc⟩ | ⟨d, _, _, hc⟩
    · simp only [applyOp, hc]
      exact Or.inl trivial
    · simp only [applyOp, hc]
      exact Or.inl trivial
    · simp only [applyOp, hc]
      exact Or.inr ⟨trivial, Task.mk s.next_id d false now, rfl, rfl⟩
  | restComplete b =>
    rcases complete_task_cases b s with hc | ⟨_, hc⟩ | ⟨d, _, _, _, hc⟩ | ⟨d, t, _, _, _, hc⟩
    all_goals simp only [applyOp, hc]
    all_goals exact Or.inl trivial
  | restDelete b =>
    rcases delete_task_cases b s with hc | ⟨_, hc⟩ | ⟨d, _, _, _, hc⟩ | ⟨d, t, _, _, _, hc⟩
    all_goals simp only [applyOp, hc]
    all_goals exact Or.inl trivial
  | brainTool tl now =>
    rcases execute_tool_cases tl now s with hc | ⟨msg, hc⟩ | ⟨fs, d, _, _, _, _, hc⟩
      | hc | ⟨fs, d, t, _, _, _, _, hc⟩ | ⟨fs, d, t, _, _, _, _, hc⟩
    all_goals simp only [applyOp, hc]
    · exact Or.inl trivial
    · exact Or.inl trivial
    · exact Or.inr ⟨trivial, Task.mk s.next_id d false now, rfl, rfl⟩
    · exact Or.inl trivial
    · exact Or.inl trivial
    · exact Or.inl trivial

theorem applyOp_next_id_le (s : St) (op : Op) :
    s.next_id ≤ (applyOp s op).next_id := by
  rcases applyOp_step s op with h | ⟨h, _⟩ <;> omega

theorem traceIds_lower_bound (ops : List Op) :
    ∀ s, ∀ i ∈ traceIds ops s, s.next_id ≤ i := by
  induction ops with
  | nil => intro s i hi; simp [traceIds] at hi
  | cons op ops ih =>
    intro s i hi
    simp only [traceIds] at hi
    rcases List.mem_append.mp hi with h1 | h2
    · unfold opAssignedIds at h1
      split at h1
      · simp at h1
        omega
      · simp at h1
    · have hm := applyOp_next_id_le s op
      have := ih (applyOp s op) i h2
      omega

theorem traceIds_pairwise (ops : List Op) :
    ∀ s, List.Pairwise (fun a b => a < b) (traceIds ops s) := by
  induction ops with
  | nil => intro s; simp [traceIds]
  | cons op ops ih =>
    intro s
    simp only [traceIds]
    apply List.pairwise_append.mpr
    refine ⟨?_, ih _, ?_⟩
    · unfold opAssignedIds
      split <;> simp
    · intro a ha b hb
      unfold opAssignedIds at ha
      split at ha
      next hlt =>
        simp at ha
        subst ha
        have := traceIds_lower_bound ops (applyOp s op) b hb
        omega
      next => simp at ha

/-! Section: Helper lemmas: every stored description normalizes non-trivially -/

/-- The store invariant behind empty-description lookups: no stored task
has an empty normalized description. -/
def DescInv (s : St) : Prop := ∀ t ∈ s.tasks, normDesc t.description ≠ ""

theorem descInv_append {s : St} {d : String} {now : String}
    (h : DescInv s) (hd : normDesc d ≠ "") :
    ∀ t ∈ s.tasks ++ [Task.mk s.next_id d false now], normDesc t.description ≠ "" := by
  intro t ht
  rcases List.mem_append.mp ht with hmem | hmem
  · exact h t hmem
  · simp at hmem
    subst hmem
    exact hd

theorem descInv_setCompletedFirst {l : List Task} {d : String}
    (h : ∀ t ∈ l, normDesc t.description ≠ "") :
    ∀ t ∈ setCompletedFirst d l, normDesc t.description ≠ "" := by
  intro t ht
  have hdesc : t.description ∈ (setCompletedFirst d l).map Task.description :=
    List.mem_map_of_mem Task.description ht
  rw [setCompletedFirst_descriptions] at hdesc
  obtain ⟨u, hu, hud⟩ := List.mem_map.mp hdesc
  rw [← hud]
  exact h u hu

theorem applyOp_DescInv (s : St) (op : Op) (h : DescInv s) :
    DescInv (applyOp s op) := by
  cases op with
  | restCreate b now =>
    rcases create_task_cases b now s with hc | ⟨_, hc⟩ | ⟨d, hd1, hd2, hc⟩
    · simp only [applyOp, hc]; exact h
    · simp only [applyOp, hc]; exact h
    · simp only [applyOp, hc]
      exact descInv_append h (getDescParam_normDesc_ne hd1 hd2)
  | restComplete b =>
    rcases complete_task_cases b s with hc | ⟨_, hc⟩ | ⟨d, _, _, _, hc⟩ | ⟨d, t, _, _, _, hc⟩
    all_goals simp only [applyOp, hc]
    · exact h
    · exact h
    · exact h
    · exact descInv_setCompletedFirst h
  | restDelete b =>
    rcases delete_task_cases b s with hc | ⟨_, hc⟩ | ⟨d, _, _, _, hc⟩ | ⟨d, t, _, _, _, hc⟩
    all_goals simp only [applyOp, hc]
    · exact h
    · exact h
    · exact h
    · exact fun u hu => h u (List.mem_of_mem_erase hu)
  | brainTool tl now =>
    rcases execute_tool_cases tl now s with hc | ⟨msg, hc⟩ | ⟨fs, d, _, _, hd1, hd2, hc⟩
      | hc | ⟨fs, d, t, _, _, _, _, hc⟩ | ⟨fs, d, t, _, _, _, _, hc⟩
    all_goals simp only [applyOp, hc]
    · exact h
    · exact h
    · exact descInv_append h (getDescParam_normDesc_ne hd1 hd2)
    · exact h
    · exact descInv_setCompletedFirst h
    · exact fun u hu => h u (List.mem_of_mem_erase hu)

theorem runOps_DescInv (ops : List Op) : DescInv (runOps ops initSt) := by
  have hgen : ∀ s, DescInv s → DescInv (runOps ops s) := by
    induction ops with
    | nil => intro s hs; exact hs
    | cons op ops ih =>
      intro s hs
      simp only [runOps, List.foldl_cons]
      exact ih (applyOp s op) (applyOp_DescInv s op hs)
  exact hgen initSt (by intro t ht; simp [initSt] at ht)

/-- Under the store invariant, looking up the empty description fails. -/
theorem find_empty_of_DescInv {s : St} (h : DescInv s) :
    _find_task_by_desc s.tasks "" = none := by
  unfold _find_task_by_desc
  apply List.find?_eq_none.mpr
  intro t ht
  simp only [descMatches, normDesc_empty, beq_iff_eq]
  exact h t ht

/-! Section: Helper lemmas: reply synthesis -/

/-- A non-empty executor description pins down the parameters object the
reply f-string reads: `fstringDesc` yields the raw (unstripped) string. -/
theorem fstringDesc_of_getDescParam {fs : List (String × JsonVal)} {d : String}
    (hp : getDescParam ((lookupField fs "parameters").getD (JsonVal.obj [])) = some d)
    (hd : d ≠ "") :
    ∃ s0, fstringDesc fs = some s0 ∧ d = pyStrip s0 := by
  cases hpar : lookupField fs "parameters" with
  | none =>
    rw [hpar] at hp
    simp only [Option.getD] at hp
    have h0 : getDescParam (JsonVal.obj []) = some "" := rfl
    rw [h0] at hp
    injection hp with hp
    exact absurd hp.symm hd
  | some pv =>
    rw [hpar] at hp
    simp only [Option.getD] at hp
    obtain ⟨pfs, s0, hpv, hdesc, hfalsy, hds⟩ := getDescParam_some_ne hp hd
    subst hpv
    refine ⟨s0, ?_, hds⟩
    simp only [fstringDesc, hpar, hdesc]
    rfl

/-- The reply-chain conjunct on an error result is false whatever the
function value: `result.get("ok")` is falsy. -/
theorem synthCond_err (fnv : JsonVal) (name msg : String) :
    synthCond fnv name (JsonVal.obj [("error", JsonVal.str msg)]) = some false := by
  cases fnv with
  | str f =>
    simp only [synthCond]
    split <;> rfl
  | null => rfl
  | bool b => rfl
  | num n => rfl
  | arr l => rfl
  | obj o => rfl

/-- Reply synthesis for a successful addTask. -/
theorem synthReply_add_ok (fs : List (String × JsonVal)) (tv : JsonVal) (ts : List Task)
    (hfn : lookupField fs "function" = some (JsonVal.str "addTask")) :
    synthReply (JsonVal.obj fs) (JsonVal.obj [("ok", JsonVal.bool true), ("task", tv)]) ts
      = (fstringDesc fs).map (fun d => "Added “" ++ d ++ "”.") := by
  simp only [synthReply, hfn]
  rfl

/-- Reply synthesis for a successful completeTask. -/
theorem synthReply_complete_ok (fs : List (String × JsonVal)) (tv : JsonVal) (ts : List Task)
    (hfn : lookupField fs "function" = some (JsonVal.str "completeTask")) :
    synthReply (JsonVal.obj fs) (JsonVal.obj [("ok", JsonVal.bool true), ("task", tv)]) ts
      = (fstringDesc fs).map (fun d => "Marked “" ++ d ++ "” as done.") := by
  simp only [synthReply, hfn]
  rfl

/-- Reply synthesis for a successful deleteTask. -/
theorem synthReply_delete_ok (fs : List (String × JsonVal)) (dv : JsonVal) (ts : List Task)
    (hfn : lookupField fs "function" = some (JsonVal.str "deleteTask")) :
    synthReply (JsonVal.obj fs)
        (JsonVal.obj [("ok", JsonVal.bool true), ("deleted_description", dv)]) ts
      = (fstringDesc fs).map (fun d => "Deleted “" ++ d ++ "”.") := by
  simp only [synthReply, hfn]
  rfl

/-- Reply synthesis for viewTasks reports the stored-task count. -/
theorem synthReply_view (fs : List (String × JsonVal)) (av : JsonVal) (ts : List Task)
    (hfn : lookupField fs "function" = some (JsonVal.str "viewTasks")) :
    synthReply (JsonVal.obj fs) (JsonVal.obj [("ok", JsonVal.bool true), ("tasks", av)]) ts
      = some ("You have " ++ toString ts.length ++ " task(s).") := by
  simp only [synthReply, hfn]
  rfl

/-- Reply synthesis on any error result of a non-view function: the
generic placeholder. -/
theorem synthReply_err (fs : List (String × JsonVal)) (msg fn : String) (ts : List Task)
    (hfn : lookupField fs "function" = some (JsonVal.str fn))
    (hne : fn ≠ "viewTasks") :
    synthReply (JsonVal.obj fs) (JsonVal.obj [("error", JsonVal.str msg)]) ts = some "OK" := by
  simp only [synthReply, hfn, synthCond_err]
  rw [if_neg (by simpa using hne)]

/-! Section: Claim theorems -/

/-- Claim C1: after code-fence stripping, a response that parses as a JSON
object whose function field is one of the four recognized names is
classified as a tool intent — whatever the parameters — and otherwise
(parse failure, non-object JSON, missing or unrecognized function value)
the router classifies the response as a plain-text reply carrying the
fence-stripped content verbatim. -/
theorem c1_router_classification (parse : String → Option JsonVal) (raw : String) :
    (∀ fs fnv, parse (_strip_fences raw) = some (JsonVal.obj fs) →
      lookupField fs "function" = some fnv →
      (fnv = JsonVal.str "addTask" ∨ fnv = JsonVal.str "completeTask"
        ∨ fnv = JsonVal.str "deleteTask" ∨ fnv = JsonVal.str "viewTasks") →
      routeContent parse raw = RouteResult.tool (JsonVal.obj fs))
    ∧ (parse (_strip_fences raw) = none →
        routeContent parse raw = RouteResult.text (_strip_fences raw))
    ∧ (∀ v, parse (_strip_fences raw) = some v → (∀ fs, v ≠ JsonVal.obj fs) →
        routeContent parse raw = RouteResult.text (_strip_fences raw))
    ∧ (∀ fs, parse (_strip_fences raw) = some (JsonVal.obj fs) →
        lookupField fs "function" = none →
        routeContent parse raw = RouteResult.text (_strip_fences raw))
    ∧ (∀ fs fnv, parse (_strip_fences raw) = some (JsonVal.obj fs) →
        lookupField fs "function" = some fnv →
        inRecognizedSet fnv = false →
        routeContent parse raw = RouteResult.text (_strip_fences raw)) := by
  refine ⟨?_, ?_, ?_, ?_, ?_⟩
  · intro fs fnv hp hfn hrec
    have hin : inRecognizedSet fnv = true := by
      rcases hrec with rfl | rfl | rfl | rfl <;> rfl
    simp only [routeContent, hp, hfn, hin]
    rfl
  · intro hp
    simp only [routeContent, hp]
  · intro v hp hno
    cases v with
    | obj fs => exact absurd rfl (hno fs)
    | null => simp only [routeContent, hp]
    | bool b => simp only [routeContent, hp]
    | num n => simp only [routeContent, hp]
    | str s => simp only [routeContent, hp]
    | arr l => simp only [routeContent, hp]
  · intro fs hp hfn
    simp only [routeContent, hp, hfn]
  · intro fs fnv hp hfn hin
    simp only [routeContent, hp, hfn, hin]
    rfl

/-- Witness for C1: a concrete parser recognizing one response; a fenced,
padded `addTask` object is routed as a tool intent. -/
theorem c1_router_classification_witness :
    routeContent
      (fun c => if c == "X" then some (JsonVal.obj [("function", JsonVal.str "addTask")])
                else none)
      "  X  "
      = RouteResult.tool (JsonVal.obj [("function", JsonVal.str "addTask")]) :=
  (c1_router_classification
      (fun c => if c == "X" then some (JsonVal.obj [("function", JsonVal.str "addTask")])
               else none)
      "  X  ").1
    [("function", JsonVal.str "addTask")] (JsonVal.str "addTask") rfl rfl (Or.inl rfl)

/-- Claim C2 fails as stated: the universal over every request is false.
With the LLM client unconfigured, the request body with message 5 (any
truthy non-string) raises before `llm_route` is ever called — the
message extraction calls `.strip()` on an integer — so the endpoint
produces an uncaught exception (HTTP 500), not the claimed 200 mode-text
body. -/
theorem c2_llm_failure_counterexample :
    brain_execute_request (some (JsonVal.obj [("message", JsonVal.num 5)]))
        (fun _ => LLMOutcome.noClient) (fun _ => none) "t" initSt
      = none :=
  rfl

/-- Claim C2 (amended): for every request to the conversational endpoint
whose message extraction does not raise (the message field is a string,
falsy, or absent), if the LLM client is not configured or the LLM call
raises any transport/SDK-level exception, the endpoint returns HTTP 200
with a mode-text body carrying a reply; such LLM-layer failures never
surface as an error status. -/
theorem c2_llm_failure_degraded (body? : Option JsonVal) (msg : String)
    (oracle : String → LLMOutcome) (parse : String → Option JsonVal)
    (now : String) (s : St)
    (hmsg : getMsgParam (getJsonOr body?) = some msg)
    (h : oracle msg = LLMOutcome.noClient ∨ oracle msg = LLMOutcome.sdkError) :
    brain_execute_request body? oracle parse now s
      = some (200, JsonVal.obj [("mode", JsonVal.str "text"),
                                ("reply", JsonVal.str "Sorry, I can\x27t do that.")], s) := by
  simp only [brain_execute_request, hmsg]
  rcases h with h | h <;> rw [h] <;> rfl

/-- Witness for C2 (amended): an unconfigured client on a well-formed
`hello` request and the initial state. -/
theorem c2_llm_failure_degraded_witness :
    brain_execute_request (some (JsonVal.obj [("message", JsonVal.str "hello")]))
        (fun _ => LLMOutcome.noClient) (fun _ => none) "t" initSt
      = some (200, JsonVal.obj [("mode", JsonVal.str "text"),
                                ("reply", JsonVal.str "Sorry, I can\x27t do that.")], initSt) :=
  c2_llm_failure_degraded (some (JsonVal.obj [("message", JsonVal.str "hello")])) "hello"
    (fun _ => LLMOutcome.noClient) (fun _ => none) "t" initSt rfl (Or.inl rfl)

/-- Claim C5 fails as stated: on the very scenario given in the spec (delete
`Buy Milk` against the stored task `buy milk`) the executor success
result carries the key `deleted_description`, and holds no
`deletedDescription` key at all. -/
theorem c5_deletedDescription_counterexample :
    _execute_tool
        (JsonVal.obj [("function", JsonVal.str "deleteTask"),
                      ("parameters", JsonVal.obj [("description", JsonVal.str "Buy Milk")])])
        "t1" (St.mk [Task.mk 1 "buy milk" false "t0"] 2)
      = some (JsonVal.obj [("ok", JsonVal.bool true),
                           ("deleted_description", JsonVal.str "Buy Milk")],
              St.mk [] 2)
    ∧ lookupField [("ok", JsonVal.bool true),
                   ("deleted_description", JsonVal.str "Buy Milk")] "deletedDescription"
      = none :=
  ⟨rfl, rfl⟩

/-- Claim C5 (amended): for every deleteTask intent whose trimmed
description parameter matches an existing task under normalization, the
executor removes that task and returns ok true with key
`deleted_description` (snake case, not `deletedDescription`) holding the
trimmed input description. -/
theorem c5_deleteTask_success (fs : List (String × JsonVal)) (now : String) (s : St)
    (d : String) (t : Task)
    (hfn : lookupField fs "function" = some (JsonVal.str "deleteTask"))
    (hp : getDescParam ((lookupField fs "parameters").getD (JsonVal.obj [])) = some d)
    (hf : _find_task_by_desc s.tasks d = some t) :
    _execute_tool (JsonVal.obj fs) now s
      = some (JsonVal.obj [("ok", JsonVal.bool true),
                           ("deleted_description", JsonVal.str d)],
              St.mk (s.tasks.erase t) s.next_id) := by
  rw [exec_deleteTask_eq fs now s hfn]
  simp only [hp, hf]

/-- Witness for C5 (amended) at the scenario given in the spec. -/
theorem c5_deleteTask_success_witness :
    _execute_tool
        (JsonVal.obj [("function", JsonVal.str "deleteTask"),
                      ("parameters", JsonVal.obj [("description", JsonVal.str "Buy Milk")])])
        "t1" (St.mk [Task.mk 1 "buy milk" false "t0"] 2)
      = some (JsonVal.obj [("ok", JsonVal.bool true),
                           ("deleted_description", JsonVal.str "Buy Milk")],
              St.mk [] 2) :=
  c5_deleteTask_success
    [("function", JsonVal.str "deleteTask"),
     ("parameters", JsonVal.obj [("description", JsonVal.str "Buy Milk")])]
    "t1" (St.mk [Task.mk 1 "buy milk" false "t0"] 2) "Buy Milk"
    (Task.mk 1 "buy milk" false "t0") rfl rfl rfl

/-- Claim C6: a creation request whose description is missing, empty or
whitespace-only after trimming is rejected — REST with 400 and
`description is required`, the executor with `description required` — and
in both cases the state (task list and id counter) is unchanged. -/
theorem c6_empty_description_rejected (b : Option JsonVal) (now : String) (s : St)
    (fs : List (String × JsonVal))
    (hb : getDescParam (getJsonOr b) = some "")
    (hfn : lookupField fs "function" = some (JsonVal.str "addTask"))
    (hp : getDescParam ((lookupField fs "parameters").getD (JsonVal.obj [])) = some "") :
    create_task b now s
      = some (400, JsonVal.obj [("error", JsonVal.str "description is required")], s)
    ∧ _execute_tool (JsonVal.obj fs) now s
      = some (JsonVal.obj [("error", JsonVal.str "description required")], s) := by
  constructor
  · simp only [create_task, hb]
    rfl
  · rw [exec_addTask_eq fs now s hfn]
    simp only [hp]
    rfl

/-- Witness for C6: a REST body with no description key, and an addTask
intent with a whitespace-only description. -/
theorem c6_empty_description_rejected_witness :
    create_task (some (JsonVal.obj [])) "t" initSt
      = some (400, JsonVal.obj [("error", JsonVal.str "description is required")], initSt)
    ∧ _execute_tool
        (JsonVal.obj [("function", JsonVal.str "addTask"),
                      ("parameters", JsonVal.obj [("description", JsonVal.str "   ")])])
        "t" initSt
      = some (JsonVal.obj [("error", JsonVal.str "description required")], initSt) :=
  c6_empty_description_rejected (some (JsonVal.obj [])) "t" initSt
    [("function", JsonVal.str "addTask"),
     ("parameters", JsonVal.obj [("description", JsonVal.str "   ")])]
    rfl rfl rfl

/-- Claim C10: for a completeTask or deleteTask intent whose description
parameter is absent, null or whitespace-only (all normalize to the empty
string), the executor returns the `not found` error with unchanged state
and raises no exception, because on every state reachable from startup no
stored task has an empty normalized description. -/
theorem c10_empty_lookup_not_found (ops : List Op) (fs : List (String × JsonVal))
    (fn : String) (now : String) (s : St)
    (hfn : lookupField fs "function" = some (JsonVal.str fn))
    (hcd : fn = "completeTask" ∨ fn = "deleteTask")
    (hp : getDescParam ((lookupField fs "parameters").getD (JsonVal.obj [])) = some "")
    (hreach : s = runOps ops initSt) :
    _execute_tool (JsonVal.obj fs) now s
      = some (JsonVal.obj [("error", JsonVal.str "not found")], s) := by
  have hinv : DescInv s := hreach ▸ runOps_DescInv ops
  have hfind : _find_task_by_desc s.tasks "" = none := find_empty_of_DescInv hinv
  rcases hcd with rfl | rfl
  · rw [exec_completeTask_eq fs now s hfn]
    simp only [hp, hfind]
  · rw [exec_deleteTask_eq fs now s hfn]
    simp only [hp, hfind]

/-- Witness for C10: after one creation, a completeTask intent with no
parameters at all is answered `not found` on the reachable state. -/
theorem c10_empty_lookup_not_found_witness :
    _execute_tool (JsonVal.obj [("function", JsonVal.str "completeTask")]) "t2"
        (St.mk [Task.mk 1 "water plants" false "t1"] 2)
      = some (JsonVal.obj [("error", JsonVal.str "not found")],
              St.mk [Task.mk 1 "water plants" false "t1"] 2) :=
  c10_empty_lookup_not_found
    [Op.restCreate (some (JsonVal.obj [("description", JsonVal.str "water plants")])) "t1"]
    [("function", JsonVal.str "completeTask")] "completeTask" "t2"
    (St.mk [Task.mk 1 "water plants" false "t1"] 2)
    rfl (Or.inl rfl) rfl rfl

/-- Claim C3: a successful creation (REST or executor addTask) stores the
current counter as the new id and then increments the counter; hence along
any request sequence from startup the ids ever assigned are strictly
increasing in creation order — so unique and never reused after deletion —
and every counter bump comes from appending one task with the old counter
value. -/
theorem c3_ids_strictly_increasing (ops : List Op) :
    List.Pairwise (fun a b => a < b) (traceIds ops initSt)
    ∧ (∀ b now st bd s', create_task b now st = some (201, bd, s') →
        ∃ d, bd = taskJson (Task.mk st.next_id d false now)
          ∧ s'.tasks = st.tasks ++ [Task.mk st.next_id d false now]
          ∧ s'.next_id = st.next_id + 1)
    ∧ (∀ fs d now st, lookupField fs "function" = some (JsonVal.str "addTask") →
        getDescParam ((lookupField fs "parameters").getD (JsonVal.obj [])) = some d →
        d ≠ "" →
        _execute_tool (JsonVal.obj fs) now st
          = some (JsonVal.obj [("ok", JsonVal.bool true),
                               ("task", taskJson (Task.mk st.next_id d false now))],
                  St.mk (st.tasks ++ [Task.mk st.next_id d false now]) (st.next_id + 1)))
    ∧ (∀ st op, st.next_id < (applyOp st op).next_id →
        ∃ t, (applyOp st op).tasks = st.tasks ++ [t] ∧ t.id = st.next_id
          ∧ (applyOp st op).next_id = st.next_id + 1) := by
  refine ⟨traceIds_pairwise ops initSt, ?_, ?_, ?_⟩
  · intro b now st bd s' h
    rcases create_task_cases b now st with hc | ⟨-, hc⟩ | ⟨d, -, -, hc⟩
    · rw [hc] at h
      cases h
    · rw [hc] at h
      simp at h
    · rw [hc] at h
      simp only [Option.some.injEq, Prod.mk.injEq] at h
      obtain ⟨-, hbd, hs⟩ := h
      refine ⟨d, hbd.symm, ?_, ?_⟩
      · rw [← hs]
      · rw [← hs]
  · intro fs d now st hfn hp hd
    rw [exec_addTask_eq fs now st hfn]
    simp only [hp]
    rw [if_neg (by simpa using hd)]
  · intro st op hlt
    rcases applyOp_step st op with h | ⟨h1, t, h2, h3⟩
    · omega
    · exact ⟨t, h2, h3, h1⟩

/-- Witness for C3: a create/delete/create sequence assigns ids 1 then 2
(the deleted id 1 is not reused), and a concrete REST creation stores the
counter as id and bumps it. -/
theorem c3_ids_strictly_increasing_witness :
    List.Pairwise (fun a b => a < b)
      (traceIds
        [Op.restCreate (some (JsonVal.obj [("description", JsonVal.str "a")])) "t1",
         Op.restDelete (some (JsonVal.obj [("description", JsonVal.str "a")])),
         Op.restCreate (some (JsonVal.obj [("description", JsonVal.str "b")])) "t2"]
        initSt)
    ∧ (∃ d, taskJson (Task.mk 1 "a" false "t1") = taskJson (Task.mk initSt.next_id d false "t1")
        ∧ (St.mk [Task.mk 1 "a" false "t1"] 2).tasks
            = initSt.tasks ++ [Task.mk initSt.next_id d false "t1"]
        ∧ (St.mk [Task.mk 1 "a" false "t1"] 2).next_id = initSt.next_id + 1) :=
  ⟨(c3_ids_strictly_increasing
      [Op.restCreate (some (JsonVal.obj [("description", JsonVal.str "a")])) "t1",
       Op.restDelete (some (JsonVal.obj [("description", JsonVal.str "a")])),
       Op.restCreate (some (JsonVal.obj [("description", JsonVal.str "b")])) "t2"]).1,
   (c3_ids_strictly_increasing []).2.1
      (some (JsonVal.obj [("description", JsonVal.str "a")])) "t1" initSt
      (taskJson (Task.mk 1 "a" false "t1")) (St.mk [Task.mk 1 "a" false "t1"] 2) rfl⟩

/-- Claim C4: by-description lookup compares the trimmed, case-folded
input against each stored description trimmed and case-folded, resolving
the earliest-inserted match; description-based delete and complete act
only on that first match — delete removes exactly that one entry and
complete flips exactly that one task, with every later equal-normalized
task untouched — and when nothing matches the lookup reports not-found. -/
theorem c4_first_match_semantics (d : String) (s : St) (b : Option JsonVal) :
    (_find_task_by_desc s.tasks d = none
      ↔ ∀ t ∈ s.tasks, normDesc t.description ≠ normDesc d)
    ∧ (∀ t, _find_task_by_desc s.tasks d = some t →
        ∃ l1 l2, s.tasks = l1 ++ t :: l2
          ∧ (∀ u ∈ l1, normDesc u.description ≠ normDesc d)
          ∧ normDesc t.description = normDesc d)
    ∧ (∀ t l1 l2, getDescParam (getJsonOr b) = some d → d ≠ "" →
        _find_task_by_desc s.tasks d = some t →
        s.tasks = l1 ++ t :: l2 →
        (∀ u ∈ l1, normDesc u.description ≠ normDesc d) →
        delete_task_by_description b s
          = some (200, JsonVal.obj [("ok", JsonVal.bool true),
                                    ("deleted_description", JsonVal.str d)],
                  St.mk (l1 ++ l2) s.next_id)
        ∧ complete_task_by_description b s
          = some (200, taskJson { t with completed := true },
                  St.mk (l1 ++ ({ t with completed := true } : Task) :: l2) s.next_id)) := by
  refine ⟨?_, ?_, ?_⟩
  · constructor
    · intro h t ht
      have := List.find?_eq_none.mp h t ht
      simpa [descMatches] using this
    · intro h
      apply List.find?_eq_none.mpr
      intro t ht
      simpa [descMatches] using h t ht
  · intro t h
    obtain ⟨l1, l2, hsplit, h1, h2⟩ := find?_first (descMatches d) s.tasks t h
    refine ⟨l1, l2, hsplit, ?_, ?_⟩
    · intro u hu
      have := h1 u hu
      simpa [descMatches] using this
    · simpa [descMatches] using h2
  · intro t l1 l2 hg hd hf hsplit hl1
    have hmatch : descMatches d t = true := List.find?_some hf
    have hl1' : ∀ u ∈ l1, descMatches d u = false := by
      intro u hu
      simp only [descMatches, beq_eq_false_iff_ne, ne_eq]
      exact hl1 u hu
    constructor
    · simp only [delete_task_by_description, hg]
      rw [if_neg (by simpa using hd)]
      simp only [hf]
      rw [hsplit, erase_first_match d l1 l2 t hl1' hmatch]
    · simp only [complete_task_by_description, hg]
      rw [if_neg (by simpa using hd)]
      simp only [hf]
      rw [hsplit, setCompletedFirst_split d l1 l2 t hl1' hmatch]

/-- Witness for C4: deleting and completing `Buy Milk` on a store holding
a non-match, the first match `buy milk`, and a later duplicate
`BUY MILK ` touch only the first match. -/
theorem c4_first_match_semantics_witness :
    delete_task_by_description (some (JsonVal.obj [("description", JsonVal.str "Buy Milk")]))
        (St.mk [Task.mk 1 "other" false "t",
                Task.mk 2 "buy milk" false "t",
                Task.mk 3 "BUY MILK " false "t"] 4)
      = some (200, JsonVal.obj [("ok", JsonVal.bool true),
                                ("deleted_description", JsonVal.str "Buy Milk")],
              St.mk ([Task.mk 1 "other" false "t"] ++ [Task.mk 3 "BUY MILK " false "t"]) 4)
    ∧ complete_task_by_description (some (JsonVal.obj [("description", JsonVal.str "Buy Milk")]))
        (St.mk [Task.mk 1 "other" false "t",
                Task.mk 2 "buy milk" false "t",
                Task.mk 3 "BUY MILK " false "t"] 4)
      = some (200, taskJson { Task.mk 2 "buy milk" false "t" with completed := true },
              St.mk ([Task.mk 1 "other" false "t"]
                      ++ ({ Task.mk 2 "buy milk" false "t" with completed := true } : Task)
                        :: [Task.mk 3 "BUY MILK " false "t"]) 4) :=
  (c4_first_match_semantics "Buy Milk"
      (St.mk [Task.mk 1 "other" false "t",
              Task.mk 2 "buy milk" false "t",
              Task.mk 3 "BUY MILK " false "t"] 4)
      (some (JsonVal.obj [("description", JsonVal.str "Buy Milk")]))).2.2
    (Task.mk 2 "buy milk" false "t")
    [Task.mk 1 "other" false "t"] [Task.mk 3 "BUY MILK " false "t"]
    rfl (by decide) rfl rfl (by decide)

/-- Claim C7: completing an already-completed task is idempotent — the
REST handler answers 200 with the unchanged task, the executor answers ok
with the unchanged task, and in both cases the store is exactly as
before. -/
theorem c7_complete_idempotent (b : Option JsonVal) (s : St) (d : String) (t : Task)
    (fs : List (String × JsonVal)) (now : String)
    (hb : getDescParam (getJsonOr b) = some d)
    (hd : d ≠ "")
    (hf : _find_task_by_desc s.tasks d = some t)
    (hdone : t.completed = true)
    (hfn : lookupField fs "function" = some (JsonVal.str "completeTask"))
    (hp : getDescParam ((lookupField fs "parameters").getD (JsonVal.obj [])) = some d) :
    complete_task_by_description b s = some (200, taskJson t, s)
    ∧ _execute_tool (JsonVal.obj fs) now s
      = some (JsonVal.obj [("ok", JsonVal.bool true), ("task", taskJson t)], s) := by
  have ht : ({ t with completed := true } : Task) = t := by
    cases t
    simp_all
  have hset : setCompletedFirst d s.tasks = s.tasks := by
    obtain ⟨l1, l2, hsplit, h1, h2⟩ := find?_first (descMatches d) s.tasks t hf
    rw [hsplit, setCompletedFirst_split d l1 l2 t h1 h2, ht]
  constructor
  · simp only [complete_task_by_description, hb]
    rw [if_neg (by simpa using hd)]
    simp only [hf, ht, hset]
  · rw [exec_completeTask_eq fs now s hfn]
    simp only [hp, hf, ht, hset]

/-- Witness for C7: completing the already-completed `buy milk` twice over
leaves it, and the whole store, unchanged. -/
theorem c7_complete_idempotent_witness :
    complete_task_by_description
        (some (JsonVal.obj [("description", JsonVal.str "buy milk")]))
        (St.mk [Task.mk 1 "buy milk" true "t0"] 2)
      = some (200, taskJson (Task.mk 1 "buy milk" true "t0"),
              St.mk [Task.mk 1 "buy milk" true "t0"] 2)
    ∧ _execute_tool
        (JsonVal.obj [("function", JsonVal.str "completeTask"),
                      ("parameters", JsonVal.obj [("description", JsonVal.str "buy milk")])])
        "t1" (St.mk [Task.mk 1 "buy milk" true "t0"] 2)
      = some (JsonVal.obj [("ok", JsonVal.bool true),
                           ("task", taskJson (Task.mk 1 "buy milk" true "t0"))],
              St.mk [Task.mk 1 "buy milk" true "t0"] 2) :=
  c7_complete_idempotent
    (some (JsonVal.obj [("description", JsonVal.str "buy milk")]))
    (St.mk [Task.mk 1 "buy milk" true "t0"] 2) "buy milk"
    (Task.mk 1 "buy milk" true "t0")
    [("function", JsonVal.str "completeTask"),
     ("parameters", JsonVal.obj [("description", JsonVal.str "buy milk")])]
    "t1" rfl (by decide) rfl rfl rfl rfl

/-- Claim C8: for every tool intent executed by the conversational
endpoint on a reachable store: a successful addTask, completeTask or
deleteTask yields a templated confirmation quoting the raw intent
description parameter; viewTasks reports the current number of stored
tasks; and every failed execution — a result without an ok key — yields
the generic reply OK. -/
theorem c8_reply_synthesis (fs : List (String × JsonVal)) (fn : String)
    (now : String) (s : St) (result : JsonVal) (s' : St)
    (hinv : DescInv s)
    (hfn : lookupField fs "function" = some (JsonVal.str fn))
    (hrec : fn = "addTask" ∨ fn = "completeTask" ∨ fn = "deleteTask" ∨ fn = "viewTasks")
    (hex : _execute_tool (JsonVal.obj fs) now s = some (result, s')) :
    ∃ reply : String,
      brain_execute (some (RouteResult.tool (JsonVal.obj fs))) now s
        = some (200, JsonVal.obj [("mode", JsonVal.str "tool"),
                                  ("tool", JsonVal.obj fs), ("result", result),
                                  ("reply", JsonVal.str reply)], s')
      ∧ (∀ rs, result = JsonVal.obj rs → (lookupField rs "ok").isSome = true →
          (fn = "addTask" →
            ∃ ds, fstringDesc fs = some ds ∧ reply = "Added “" ++ ds ++ "”.")
          ∧ (fn = "completeTask" →
            ∃ ds, fstringDesc fs = some ds ∧ reply = "Marked “" ++ ds ++ "” as done.")
          ∧ (fn = "deleteTask" →
            ∃ ds, fstringDesc fs = some ds ∧ reply = "Deleted “" ++ ds ++ "”."))
      ∧ (fn = "viewTasks" → reply = "You have " ++ toString s'.tasks.length ++ " task(s).")
      ∧ (∀ rs, result = JsonVal.obj rs → lookupField rs "ok" = none → reply = "OK") := by
  rcases hrec with rfl | rfl | rfl | rfl
  · -- addTask
    have hexe := hex
    rw [exec_addTask_eq fs now s hfn] at hexe
    cases hp : getDescParam ((lookupField fs "parameters").getD (JsonVal.obj [])) with
    | none =>
      simp only [hp] at hexe
      exact Option.noConfusion hexe
    | some d =>
      simp only [hp] at hexe
      by_cases hd : d = ""
      · subst hd
        rw [if_pos (beq_self_eq_true "")] at hexe
        simp only [Option.some.injEq, Prod.mk.injEq] at hexe
        obtain ⟨hres, hst⟩ := hexe
        subst hres
        subst hst
        refine ⟨"OK", ?_, ?_, ?_, ?_⟩
        · simp only [brain_execute, hex]
          have hsr := synthReply_err fs "description required" "addTask" s.tasks hfn
            (by decide)
          simp only [hsr]
        · intro rs hrs hok
          injection hrs with hlist
          rw [← hlist] at hok
          exact absurd hok (by decide)
        · intro habs
          exact absurd habs (by decide)
        · intro rs hrs hnone
          rfl
      · rw [if_neg (by simpa using hd)] at hexe
        simp only [Option.some.injEq, Prod.mk.injEq] at hexe
        obtain ⟨hres, hst⟩ := hexe
        subst hres
        subst hst
        obtain ⟨s0, hfd, -⟩ := fstringDesc_of_getDescParam hp hd
        refine ⟨"Added “" ++ s0 ++ "”.", ?_, ?_, ?_, ?_⟩
        · simp only [brain_execute, hex]
          have hsr : synthReply (JsonVal.obj fs)
              (JsonVal.obj [("ok", JsonVal.bool true),
                            ("task", taskJson (Task.mk s.next_id d false now))])
              (St.mk (s.tasks ++ [Task.mk s.next_id d false now]) (s.next_id + 1)).tasks
              = some ("Added “" ++ s0 ++ "”.") := by
            rw [synthReply_add_ok fs _ _ hfn, hfd]
            rfl
          simp only [hsr]
        · intro rs hrs hok
          refine ⟨?_, ?_, ?_⟩
          · intro h0
            exact ⟨s0, hfd, rfl⟩
          · intro habs
            exact absurd habs (by decide)
          · intro habs
            exact absurd habs (by decide)
        · intro habs
          exact absurd habs (by decide)
        · intro rs hrs hnone
          injection hrs with hlist
          rw [← hlist] at hnone
          exact Option.noConfusion hnone
  · -- completeTask
    have hexe := hex
    rw [exec_completeTask_eq fs now s hfn] at hexe
    cases hp : getDescParam ((lookupField fs "parameters").getD (JsonVal.obj [])) with
    | none =>
      simp only [hp] at hexe
      exact Option.noConfusion hexe
    | some d =>
      simp only [hp] at hexe
      cases hf : _find_task_by_desc s.tasks d with
      | none =>
        simp only [hf] at hexe
        simp only [Option.some.injEq, Prod.mk.injEq] at hexe
        obtain ⟨hres, hst⟩ := hexe
        subst hres
        subst hst
        refine ⟨"OK", ?_, ?_, ?_, ?_⟩
        · simp only [brain_execute, hex]
          have hsr := synthReply_err fs "not found" "completeTask" s.tasks hfn (by decide)
          simp only [hsr]
        · intro rs hrs hok
          injection hrs with hlist
          rw [← hlist] at hok
          exact absurd hok (by decide)
        · intro habs
          exact absurd habs (by decide)
        · intro rs hrs hnone
          rfl
      | some t =>
        simp only [hf] at hexe
        simp only [Option.some.injEq, Prod.mk.injEq] at hexe
        obtain ⟨hres, hst⟩ := hexe
        subst hres
        subst hst
        have hd : d ≠ "" := by
          intro h0
          subst h0
          rw [find_empty_of_DescInv hinv] at hf
          exact Option.noConfusion hf
        obtain ⟨s0, hfd, -⟩ := fstringDesc_of_getDescParam hp hd
        refine ⟨"Marked “" ++ s0 ++ "” as done.", ?_, ?_, ?_, ?_⟩
        · simp only [brain_execute, hex]
          have hsr : synthReply (JsonVal.obj fs)
              (JsonVal.obj [("ok", JsonVal.bool true),
                            ("task", taskJson { t with completed := true })])
              (St.mk (setCompletedFirst d s.tasks) s.next_id).tasks
              = some ("Marked “" ++ s0 ++ "” as done.") := by
            rw [synthReply_complete_ok fs _ _ hfn, hfd]
            rfl
          simp only [hsr]
        · intro rs hrs hok
          refine ⟨?_, ?_, ?_⟩
          · intro habs
            exact absurd habs (by decide)
          · intro h0
            exact ⟨s0, hfd, rfl⟩
          · intro habs
            exact absurd habs (by decide)
        · intro habs
          exact absurd habs (by decide)
        · intro rs hrs hnone
          injection hrs with hlist
          rw [← hlist] at hnone
          exact Option.noConfusion hnone
  · -- deleteTask
    have hexe := hex
    rw [exec_deleteTask_eq fs now s hfn] at hexe
    cases hp : getDescParam ((lookupField fs "parameters").getD (JsonVal.obj [])) with
    | none =>
      simp only [hp] at hexe
      exact Option.noConfusion hexe
    | some d =>
      simp only [hp] at hexe
      cases hf : _find_task_by_desc s.tasks d with
      | none =>
        simp only [hf] at hexe
        simp only [Option.some.injEq, Prod.mk.injEq] at hexe
        obtain ⟨hres, hst⟩ := hexe
        subst hres
        subst hst
        refine ⟨"OK", ?_, ?_, ?_, ?_⟩
        · simp only [brain_execute, hex]
          have hsr := synthReply_err fs "not found" "deleteTask" s.tasks hfn (by decide)
          simp only [hsr]
        · intro rs hrs hok
          injection hrs with hlist
          rw [← hlist] at hok
          exact absurd hok (by decide)
        · intro habs
          exact absurd habs (by decide)
        · intro rs hrs hnone
          rfl
      | some t =>
        simp only [hf] at hexe
        simp only [Option.some.injEq, Prod.mk.injEq] at hexe
        obtain ⟨hres, hst⟩ := hexe
        subst hres
        subst hst
        have hd : d ≠ "" := by
          intro h0
          subst h0
          rw [find_empty_of_DescInv hinv] at hf
          exact Option.noConfusion hf
        obtain ⟨s0, hfd, -⟩ := fstringDesc_of_getDescParam hp hd
        refine ⟨"Deleted “" ++ s0 ++ "”.", ?_, ?_, ?_, ?_⟩
        · simp only [brain_execute, hex]
          have hsr : synthReply (JsonVal.obj fs)
              (JsonVal.obj [("ok", JsonVal.bool true),
                            ("deleted_description", JsonVal.str d)])
              (St.mk (s.tasks.erase t) s.next_id).tasks
              = some ("Deleted “" ++ s0 ++ "”.") := by
            rw [synthReply_delete_ok fs _ _ hfn, hfd]
            rfl
          simp only [hsr]
        · intro rs hrs hok
          refine ⟨?_, ?_, ?_⟩
          · intro habs
            exact absurd habs (by decide)
          · intro habs
            exact absurd habs (by decide)
          · intro h0
            exact ⟨s0, hfd, rfl⟩
        · intro habs
          exact absurd habs (by decide)
        · intro rs hrs hnone
          injection hrs with hlist
          rw [← hlist] at hnone
          exact Option.noConfusion hnone
  · -- viewTasks
    have hexe := hex
    rw [exec_viewTasks_eq fs now s hfn] at hexe
    simp only [Option.some.injEq, Prod.mk.injEq] at hexe
    obtain ⟨hres, hst⟩ := hexe
    subst hres
    subst hst
    refine ⟨"You have " ++ toString s.tasks.length ++ " task(s).", ?_, ?_, ?_, ?_⟩
    · simp only [brain_execute, hex]
      have hsr := synthReply_view fs (JsonVal.arr (s.tasks.map taskJson)) s.tasks hfn
      simp only [hsr]
    · intro rs hrs hok
      refine ⟨?_, ?_, ?_⟩ <;> intro habs <;> exact absurd habs (by decide)
    · intro h0
      rfl
    · intro rs hrs hnone
      injection hrs with hlist
      rw [← hlist] at hnone
      exact Option.noConfusion hnone

/-- Witness for C8: an addTask intent for `Water plants` executed on the
empty initial store. -/
theorem c8_reply_synthesis_witness :
    ∃ reply : String,
      brain_execute
          (some (RouteResult.tool
            (JsonVal.obj [("function", JsonVal.str "addTask"),
                          ("parameters",
                           JsonVal.obj [("description", JsonVal.str "Water plants")])])))
          "t" initSt
        = some (200,
            JsonVal.obj [("mode", JsonVal.str "tool"),
                         ("tool", JsonVal.obj [("function", JsonVal.str "addTask"),
                                  ("parameters",
                                   JsonVal.obj [("description", JsonVal.str "Water plants")])]),
                         ("result", JsonVal.obj [("ok", JsonVal.bool true),
                                    ("task", taskJson (Task.mk 1 "Water plants" false "t"))]),
                         ("reply", JsonVal.str reply)],
            St.mk [Task.mk 1 "Water plants" false "t"] 2)
      ∧ (∀ rs, JsonVal.obj [("ok", JsonVal.bool true),
                 ("task", taskJson (Task.mk 1 "Water plants" false "t"))] = JsonVal.obj rs →
          (lookupField rs "ok").isSome = true →
          ("addTask" = "addTask" →
            ∃ ds, fstringDesc [("function", JsonVal.str "addTask"),
                    ("parameters", JsonVal.obj [("description", JsonVal.str "Water plants")])]
                = some ds ∧ reply = "Added “" ++ ds ++ "”.")
          ∧ ("addTask" = "completeTask" →
            ∃ ds, fstringDesc [("function", JsonVal.str "addTask"),
                    ("parameters", JsonVal.obj [("description", JsonVal.str "Water plants")])]
                = some ds ∧ reply = "Marked “" ++ ds ++ "” as done.")
          ∧ ("addTask" = "deleteTask" →
            ∃ ds, fstringDesc [("function", JsonVal.str "addTask"),
                    ("parameters", JsonVal.obj [("description", JsonVal.str "Water plants")])]
                = some ds ∧ reply = "Deleted “" ++ ds ++ "”."))
      ∧ ("addTask" = "viewTasks" →
          reply = "You have "
            ++ toString (St.mk [Task.mk 1 "Water plants" false "t"] 2).tasks.length
            ++ " task(s).")
      ∧ (∀ rs, JsonVal.obj [("ok", JsonVal.bool true),
                 ("task", taskJson (Task.mk 1 "Water plants" false "t"))] = JsonVal.obj rs →
          lookupField rs "ok" = none → reply = "OK") :=
  c8_reply_synthesis
    [("function", JsonVal.str "addTask"),
     ("parameters", JsonVal.obj [("description", JsonVal.str "Water plants")])]
    "addTask" "t" initSt
    (JsonVal.obj [("ok", JsonVal.bool true),
                  ("task", taskJson (Task.mk 1 "Water plants" false "t"))])
    (St.mk [Task.mk 1 "Water plants" false "t"] 2)
    (fun t ht => absurd ht (List.not_mem_nil t))
    rfl (Or.inl rfl) rfl

/-- Claim C9: executor error results are side-effect free: whenever
`_execute_tool` returns (without raising) a result object holding no ok
key, the task list and the id counter are exactly as before the call. -/
theorem c9_error_results_pure (tool : JsonVal) (now : String) (s : St)
    (r : JsonVal) (s' : St) (rs : List (String × JsonVal))
    (hex : _execute_tool tool now s = some (r, s'))
    (hr : r = JsonVal.obj rs)
    (hnok : lookupField rs "ok" = none) :
    s' = s := by
  rcases execute_tool_cases tool now s with hc | ⟨msg, hc⟩ | ⟨fs, d, -, -, -, -, hc⟩
    | hc | ⟨fs, d, t, -, -, -, -, hc⟩ | ⟨fs, d, t, -, -, -, -, hc⟩
  all_goals rw [hc] at hex
  · exact Option.noConfusion hex
  · simp only [Option.some.injEq, Prod.mk.injEq] at hex
    exact hex.2.symm
  · simp only [Option.some.injEq, Prod.mk.injEq] at hex
    obtain ⟨hr2, -⟩ := hex
    rw [← hr2] at hr
    injection hr with hlist
    rw [← hlist] at hnok
    exact Option.noConfusion hnok
  · simp only [Option.some.injEq, Prod.mk.injEq] at hex
    obtain ⟨hr2, -⟩ := hex
    rw [← hr2] at hr
    injection hr with hlist
    rw [← hlist] at hnok
    exact Option.noConfusion hnok
  · simp only [Option.some.injEq, Prod.mk.injEq] at hex
    obtain ⟨hr2, -⟩ := hex
    rw [← hr2] at hr
    injection hr with hlist
    rw [← hlist] at hnok
    exact Option.noConfusion hnok
  · simp only [Option.some.injEq, Prod.mk.injEq] at hex
    obtain ⟨hr2, -⟩ := hex
    rw [← hr2] at hr
    injection hr with hlist
    rw [← hlist] at hnok
    exact Option.noConfusion hnok

/-- Witness for C9: a completeTask miss on a non-empty store returns the
same state it was given. -/
theorem c9_error_results_pure_witness :
    St.mk [Task.mk 1 "a" false "t0"] 5 = St.mk [Task.mk 1 "a" false "t0"] 5 :=
  c9_error_results_pure
    (JsonVal.obj [("function", JsonVal.str "completeTask"),
                  ("parameters", JsonVal.obj [("description", JsonVal.str "nope")])])
    "t1" (St.mk [Task.mk 1 "a" false "t0"] 5)
    (JsonVal.obj [("error", JsonVal.str "not found")])
    (St.mk [Task.mk 1 "a" false "t0"] 5)
    [("error", JsonVal.str "not found")]
    rfl rfl rfl

end TodoApp
